import Mathlib

/-!
Verification of the model-catalog cleanup core
(`cleanup_models_json.py`): cost-structure normalization, default
pricing, status organization, decimal serialization and the
exponent-repair pass.

Conventions of the embedding:
* Python numeric price values (floats/ints) are modelled as exact
  rationals `ℚ`; the script manipulates them only by multiplication
  with configured rational multipliers, so the idealization is uniform.
* Python dicts with a fixed field set become structures; the one dict
  that is *built* field by field and inspected by key
  (`clean_model_config`'s result) becomes an association list so that
  key presence/absence is expressible.
* A cost tier value can be a legacy flat scalar, a split
  `{input, output}` pair, or an unrecognized value that the script
  passes through verbatim (modelled opaquely as `CostVal.other`).
-/

/-- A `{input, output}` price pair (currency per token). -/
structure PriceTier where
  input : ℚ
  output : ℚ
deriving DecidableEq

/-- One cost-tier value as found in the input JSON: a legacy flat
scalar, a split input/output pair, or an unrecognized shape that the
script passes through unchanged (kept opaque). -/
inductive CostVal where
  | flat : ℚ → CostVal
  | split : ℚ → ℚ → CostVal
  | other : String → CostVal
deriving DecidableEq

/-- The `costPerToken` dictionary: each tier key may be absent. -/
structure CostPT where
  onDemand : Option CostVal
  provisioned : Option CostVal
deriving DecidableEq

/-- The `access` dictionary. -/
structure Access where
  onDemand : Bool
  provisionable : Bool
deriving DecidableEq

/-- The `capabilities.modalities` dictionary. -/
structure Modalities where
  input : List String
  output : List String
deriving DecidableEq

/-- The `capabilities` blob (only `modalities` is ever inspected,
by the Amazon default-pricing rules). -/
structure Capabilities where
  modalities : Modalities
deriving DecidableEq

/-- A model record from the catalog.  The six recognized fields plus
the extra fields that `clean_model_config` drops (`aliases`, `status`,
`modality`, `llmgateway`); `status`, `modality` and `llmgateway` are
never inspected, only dropped, so they are kept opaque. -/
structure ModelRecord where
  modelId : String
  provider : String
  vendor : String
  capabilities : Capabilities
  access : Access
  costPerToken : Option CostPT
  aliases : Option (List String)
  status : Option String
  modality : Option String
  llmgateway : Option String
deriving DecidableEq

/-- A vendor group of the catalog document. -/
structure VendorGroup where
  name : String
  models : List ModelRecord
deriving DecidableEq

/-- Boolean substring test on character lists: `containsSubList pat s`
is `true` iff `pat` occurs contiguously in `s` (Python's `pat in s`). -/
def containsSubList (pat : List Char) : List Char → Bool
  | [] => pat.isEmpty
  | c :: rest => pat.isPrefixOf (c :: rest) || containsSubList pat rest

/-- Python's `pat in s` substring test on strings. -/
def strContains (s pat : String) : Bool :=
  containsSubList pat.data s.data

/-- Python's `str.lower()` (ASCII case mapping, which covers every
string the script compares); extensionally `String.toLower`, defined
directly over the character list. -/
def pyLower (s : String) : String :=
  ⟨s.data.map Char.toLower⟩

/-- The `VENDOR_MULTIPLIERS` table of the script. -/
def VENDOR_MULTIPLIERS : List (String × ℚ) :=
  [("anthropic", 3.0),
   ("meta", 2.0),
   ("mistral ai", 2.0),
   ("cohere", 1.5),
   ("ai21 labs", 2.0),
   ("default", 3.0)]

/-- `VENDOR_MULTIPLIERS.get(vendor, VENDOR_MULTIPLIERS["default"])`:
the entry for the (already lower-cased) vendor, falling back to the
table's `"default"` entry. -/
def get_multiplier (vendor : String) : ℚ :=
  (List.lookup vendor VENDOR_MULTIPLIERS).getD
    ((List.lookup "default" VENDOR_MULTIPLIERS).getD 0)

/-- The on-demand tier chosen by `get_default_pricing`: the dict is
initialized to the generic default and then overwritten by the first
applicable vendor/model rule (nested `if`/`elif` in the source). -/
def default_on_demand (m : ModelRecord) : PriceTier :=
  let vendor := pyLower m.vendor
  let model_id := pyLower m.modelId
  if vendor = "anthropic" then
    if strContains model_id "claude-3-opus" then ⟨0.0000150, 0.0000450⟩
    else if strContains model_id "claude-3-sonnet" then ⟨0.0000050, 0.0000150⟩
    else if strContains model_id "claude-3-haiku" then ⟨0.0000013, 0.0000038⟩
    else if strContains model_id "claude-3" then ⟨0.0000080, 0.0000240⟩
    else ⟨0.0000100, 0.0000300⟩
  else if vendor = "meta" then
    if strContains model_id "70b" then ⟨0.0000035, 0.0000070⟩
    else ⟨0.0000010, 0.0000020⟩
  else if vendor = "mistral ai" then
    if strContains model_id "large" then ⟨0.0000040, 0.0000080⟩
    else if strContains model_id "small" then ⟨0.0000010, 0.0000020⟩
    else ⟨0.0000020, 0.0000040⟩
  else if vendor = "amazon" then
    if m.capabilities.modalities.output.contains "EMBEDDING" then ⟨0.0000003, 0.0⟩
    else if m.capabilities.modalities.output.contains "IMAGE" then ⟨0.0000080, 0.0010000⟩
    else ⟨0.0000100, 0.0000300⟩
  else ⟨0.0000100, 0.0000300⟩

/-- Result shape of `get_default_pricing`: always an on-demand pair,
plus a provisioned pair when the model is provisionable. -/
structure DefaultPricing where
  onDemand : PriceTier
  provisioned : Option PriceTier
deriving DecidableEq

/-- `get_default_pricing`: the on-demand rule table above, plus a
provisioned tier at 80% of on-demand when `access.provisionable`. -/
def get_default_pricing (m : ModelRecord) : DefaultPricing :=
  { onDemand := default_on_demand m
    provisioned :=
      if m.access.provisionable then
        some ⟨(default_on_demand m).input * 0.8, (default_on_demand m).output * 0.8⟩
      else none }

/-- `normalize_cost_structure`: rewrite `costPerToken` into the
canonical form.  Missing `costPerToken` is replaced wholesale by the
default pricing; otherwise each tier is passed through when already
split, converted via the vendor multiplier when a flat scalar, passed
through when unrecognized, and (for `provisioned` only) synthesized
from the default pricing when absent but provisionable. -/
def normalize_cost_structure (m : ModelRecord) : ModelRecord :=
  match m.costPerToken with
  | none =>
      let dp := get_default_pricing m
      let cpt : CostPT :=
        { onDemand := some (.split dp.onDemand.input dp.onDemand.output)
          provisioned := dp.provisioned.map fun t => .split t.input t.output }
      { m with costPerToken := some cpt }
  | some cpt =>
      let od : CostVal :=
        match cpt.onDemand with
        | some (.split i o) => .split i o
        | some (.flat r) => .split r (r * get_multiplier (pyLower m.vendor))
        | some (.other s) => .other s
        | none =>
            let dp := get_default_pricing m
            .split dp.onDemand.input dp.onDemand.output
      let prov : Option CostVal :=
        match cpt.provisioned with
        | some (.split i o) => some (.split i o)
        | some (.flat r) => some (.split r (r * get_multiplier (pyLower m.vendor)))
        | some (.other s) => some (.other s)
        | none =>
            if m.access.provisionable then
              (get_default_pricing m).provisioned.map fun t => .split t.input t.output
            else none
      { m with costPerToken := some { onDemand := some od, provisioned := prov } }

/-- A value stored in the cleaned model dictionary. -/
inductive FieldVal where
  | str : String → FieldVal
  | caps : Capabilities → FieldVal
  | acc : Access → FieldVal
  | cost : Option CostPT → FieldVal
deriving DecidableEq

/-- `clean_model_config`: build the cleaned record as a fresh
dictionary of exactly the six recognized fields; `costPerToken` is
taken from the normalized model in both source branches (with and
without an input `costPerToken`, the code performs the same call). -/
def clean_model_config (m : ModelRecord) : List (String × FieldVal) :=
  [("modelId", .str m.modelId),
   ("provider", .str m.provider),
   ("vendor", .str m.vendor),
   ("capabilities", .caps m.capabilities),
   ("access", .acc m.access),
   ("costPerToken", .cost (normalize_cost_structure m).costPerToken)]

example :
    get_multiplier "anthropic" = 3 := by
  norm_num +decide [get_multiplier, VENDOR_MULTIPLIERS]

example :
    default_on_demand
      { modelId := "anthropic.claude-3-haiku-20240307-v1:0", provider := "bedrock",
        vendor := "Anthropic", capabilities := ⟨⟨[], []⟩⟩,
        access := ⟨true, false⟩, costPerToken := none, aliases := none,
        status := none, modality := none, llmgateway := none } = ⟨0.0000013, 0.0000038⟩ := by
  norm_num +decide [default_on_demand]

/-- A `{modelId, billing}` entry of the status tree. -/
structure SModel where
  modelId : String
  billing : String
deriving DecidableEq

/-- A vendor bucket of the status tree. -/
structure Bucket where
  name : String
  models : List SModel
deriving DecidableEq

/-- One entry of the `READY` branch's `connections` array. -/
structure ReadyConnection where
  type : String
  vendors : List Bucket
deriving DecidableEq

/-- The status document shape: the `READY` branch's connection list
and the `NOT_READY` branch's vendor list. -/
structure StatusTree where
  readyConnections : List ReadyConnection
  notReadyVendors : List Bucket
deriving DecidableEq

/-- `get_or_create_vendor` followed by the `append`: find the first
bucket named `vname` and append the entry to its model list, creating
the bucket at the end of the list when absent. -/
def addToVendor (vname : String) (e : SModel) : List Bucket → List Bucket
  | [] => [⟨vname, [e]⟩]
  | b :: bs =>
      if b.name = vname then ⟨b.name, b.models ++ [e]⟩ :: bs
      else b :: addToVendor vname e bs

/-- Per-model step of `organize_status_data`: the state is the pair
(`READY/ONDEMAND` vendor list, `NOT_READY` vendor list). -/
def statusStep (vname : String) (st : List Bucket × List Bucket)
    (m : ModelRecord) : List Bucket × List Bucket :=
  if m.access.onDemand then
    (addToVendor vname ⟨m.modelId, "ONDEMAND"⟩ st.1, st.2)
  else
    (st.1, addToVendor vname ⟨m.modelId, "ONDEMAND"⟩ st.2)

/-- `organize_status_data`: fold over every vendor's models, then wrap
the two accumulated vendor lists in the fixed document shape (the
`READY/PROVISIONED` connection is created but never touched). -/
def organize_status_data (cat : List VendorGroup) : StatusTree :=
  let st := cat.foldl
    (fun st v => v.models.foldl (statusStep v.name) st) ([], [])
  { readyConnections := [⟨"ONDEMAND", st.1⟩, ⟨"PROVISIONED", []⟩]
    notReadyVendors := st.2 }

/-- All `(vendorName, entry)` pairs of a vendor-bucket list, in tree
order. -/
def bucketPairs (bs : List Bucket) : List (String × SModel) :=
  bs.flatMap fun b => b.models.map fun m => (b.name, m)

/-- All `(vendorName, model)` pairs of the catalog, in document
order. -/
def catPairs (cat : List VendorGroup) : List (String × ModelRecord) :=
  cat.flatMap fun v => v.models.map fun m => (v.name, m)

/-- The status entry the organizer inserts for a model. -/
def statusEntry (p : String × ModelRecord) : String × SModel :=
  (p.1, ⟨p.2.modelId, "ONDEMAND"⟩)

/-- Decimal digit characters of `n`, most significant first, with an
explicit fuel argument (structural recursion; the fuel `n + 1` always
suffices since `n / 10 < n` for `n ≥ 10`). -/
def natCharsAux : Nat → Nat → List Char → List Char
  | 0, _, acc => acc
  | fuel + 1, n, acc =>
      let d := Nat.digitChar (n % 10)
      if n < 10 then d :: acc
      else natCharsAux fuel (n / 10) (d :: acc)

/-- Decimal digit characters of `n`, e.g. `natChars 130 = "130"`. -/
def natChars (n : Nat) : List Char :=
  natCharsAux (n + 1) n []

/-- Round to the nearest integer, ties to even: the rounding Python's
fixed-point float formatting applies to the exact value. -/
def roundHalfEven (q : ℚ) : ℤ :=
  let f := ⌊q⌋
  let r := q - f
  if r < 1/2 then f
  else if 1/2 < r then f + 1
  else if f % 2 = 0 then f else f + 1

/-- The raw fixed-point rendering `f"{q:.Pf}"` of the exact value `q`:
optional minus sign, the integer digits, and (when `P > 0`) a point
followed by exactly `P` fraction digits. -/
def fixedChars (q : ℚ) (P : Nat) : List Char :=
  let n := (roundHalfEven (|q| * 10 ^ P)).toNat
  let ip := n / 10 ^ P
  let fp := n % 10 ^ P
  let sign : List Char := if q < 0 then ['-'] else []
  let frac : List Char :=
    if P = 0 then []
    else '.' :: (List.replicate (P - (natChars fp).length) '0' ++ natChars fp)
  sign ++ natChars ip ++ frac

/-- The Boolean test `x = c` on characters. -/
def eqChar (c : Char) : Char → Bool := fun x => x = c

/-- Python's `s.rstrip(c)`: drop every trailing occurrence of `c`. -/
def rstripChar (c : Char) (s : List Char) : List Char :=
  (s.reverse.dropWhile (eqChar c)).reverse

/-- `DecimalEncoder.format_float` (the same logic is inlined in
`dump_json.process_item`): fixed-point formatting at `P` decimal
places, then — when a point is present — strip trailing zeros and a
trailing point. -/
def format_float (q : ℚ) (P : Nat) : List Char :=
  let float_str := fixedChars q P
  if '.' ∈ float_str then rstripChar '.' (rstripChar '0' float_str)
  else float_str

/-- Numeric value of a digit-character list, most significant first
(`'0'` has code 48). -/
def digitsVal (l : List Char) : ℕ :=
  l.foldl (fun a c => 10 * a + (c.toNat - 48)) 0

/-- `scientific_to_decimal`, the regex-replacement callback of
`dump_json`'s defensive second pass, on a match
`base[.frac]e(exp)`: positive exponents move the point right (padding
with zeros), non-positive exponents emit `"0." + "0"*(exp-1) + base +
frac` (Python's `"0" * k` is empty for `k ≤ 0`, as is `Nat`
subtraction here). -/
def scientific_to_decimal (base frac : List Char) (exp : ℤ) : List Char :=
  if 0 < exp then
    let e := exp.toNat
    if frac.length ≤ e then base ++ frac ++ List.replicate (e - frac.length) '0'
    else base ++ frac.take e ++ '.' :: frac.drop e
  else
    let k := exp.natAbs
    '0' :: '.' :: (List.replicate (k - 1) '0' ++ base ++ frac)

/-- The Boolean test for a non-point character. -/
def notDot : Char → Bool := fun c => c ≠ '.'

/-- Value denoted by a plain decimal character string with at most one
point: integer part plus fraction part scaled by its length. -/
def decCharsVal (s : List Char) : ℚ :=
  let ip := s.takeWhile notDot
  let fp := (s.dropWhile notDot).drop 1
  (digitsVal ip : ℚ) + (digitsVal fp : ℚ) / 10 ^ fp.length

/-- Value denoted by the scientific-notation literal
`base.frac e exp`. -/
def sciVal (base frac : List Char) (exp : ℤ) : ℚ :=
  ((digitsVal base : ℚ) + (digitsVal frac : ℚ) / 10 ^ frac.length) * 10 ^ exp

/-- Python `float(s)` on the strings the CLI passes as multiplier
values, modelled on simple signed decimal forms; the claims only
depend on whether parsing succeeds. -/
def parseFloat? (s : String) : Option ℚ :=
  let l := s.data
  let core : List Char × ℚ :=
    match l with
    | '-' :: r => (r, -1)
    | '+' :: r => (r, 1)
    | _ => (l, 1)
  let body := core.1
  let ip := body.takeWhile fun c => c ≠ '.'
  let rest := body.dropWhile fun c => c ≠ '.'
  match rest with
  | [] =>
      if ip ≠ [] ∧ ip.all Char.isDigit then some (core.2 * digitsVal ip)
      else none
  | _ :: fp =>
      if (ip ≠ [] ∨ fp ≠ []) ∧ ip.all Char.isDigit ∧ fp.all Char.isDigit then
        some (core.2 * ((digitsVal ip : ℚ) + (digitsVal fp : ℚ) / 10 ^ fp.length))
      else none

/-- A filesystem effect of the pipeline: opening a file for writing
(`open(path, "w")`, which truncates it) or completing a document
write. -/
inductive FsEvent where
  | openTrunc : String → FsEvent
  | writeDoc : String → FsEvent
deriving DecidableEq

/-- Outcome of one `cleanup_models_json` run: the filesystem events in
order, the number of multiplier values rejected by `float()` (each
logged, none fatal), and whether the run ended in the top-level
`except` handler. -/
structure RunResult where
  events : List FsEvent
  configErrors : ℕ
  aborted : Bool
deriving DecidableEq

/-- Whether a tier value makes `dump_json` format a float (the `ℚ`
embedding erases Python's int/float distinction; the concrete inputs
used below carry genuine floats). -/
def costValHasFloat : CostVal → Bool
  | .flat _ => true
  | .split _ _ => true
  | .other _ => false

/-- Whether the cleaned catalog contains a float for `dump_json` to
format. -/
def catalogFloatAfterClean (cat : List VendorGroup) : Bool :=
  cat.any fun v => v.models.any fun m =>
    let c := ((normalize_cost_structure m).costPerToken).getD ⟨none, none⟩
    (c.onDemand.map costValHasFloat).getD false
      || (c.provisioned.map costValHasFloat).getD false

/-- The effect skeleton of `cleanup_models_json`: invalid multiplier
strings are only logged (the run continues); the in-memory catalog is
cleaned unconditionally; then, unless `--dry-run`, `models.json` is
opened for writing (truncating it) and `dump_json` runs — raising
`ValueError` on the first float when the requested precision is
negative, which the top-level `except` swallows, so `status.json` and
`aliases.json` are then never written. -/
def runCleanup (mulArgs : List (String × String)) (decimalPlaces : ℤ)
    (dryRun : Bool) (cat : List VendorGroup) : RunResult :=
  let cfgErrs := (mulArgs.filter fun p => (parseFloat? p.2).isNone).length
  if dryRun then ⟨[], cfgErrs, false⟩
  else if decimalPlaces < 0 ∧ catalogFloatAfterClean cat then
    ⟨[.openTrunc "models.json"], cfgErrs, true⟩
  else
    ⟨[.openTrunc "models.json", .writeDoc "models.json",
      .openTrunc "status.json", .writeDoc "status.json",
      .openTrunc "aliases.json", .writeDoc "aliases.json"], cfgErrs, false⟩

/-- First-match evaluation of an ordered rule table: the tier of the
first row whose condition holds, else the fallback. -/
def firstMatch : List (Bool × PriceTier) → PriceTier → PriceTier
  | [], d => d
  | (c, t) :: rest, d => if c then t else firstMatch rest d

/-- Modelled from the spec: the rows of §4.2's ordered default-pricing
rule table, in table order, for an already lower-cased vendor, a
model identifier to be matched by substring search, and the output
modalities (used by the amazon rows). -/
def specRows (vendorLower id : String) (outs : List String) :
    List (Bool × PriceTier) :=
  [(decide (vendorLower = "anthropic") && strContains id "claude-3-opus",
      ⟨0.0000150, 0.0000450⟩),
   (decide (vendorLower = "anthropic") && strContains id "claude-3-sonnet",
      ⟨0.0000050, 0.0000150⟩),
   (decide (vendorLower = "anthropic") && strContains id "claude-3-haiku",
      ⟨0.0000013, 0.0000038⟩),
   (decide (vendorLower = "anthropic") && strContains id "claude-3",
      ⟨0.0000080, 0.0000240⟩),
   (decide (vendorLower = "meta") && strContains id "70b",
      ⟨0.0000035, 0.0000070⟩),
   (decide (vendorLower = "meta"), ⟨0.0000010, 0.0000020⟩),
   (decide (vendorLower = "mistral ai") && strContains id "large",
      ⟨0.0000040, 0.0000080⟩),
   (decide (vendorLower = "mistral ai") && strContains id "small",
      ⟨0.0000010, 0.0000020⟩),
   (decide (vendorLower = "mistral ai"), ⟨0.0000020, 0.0000040⟩),
   (decide (vendorLower = "amazon") && outs.contains "EMBEDDING",
      ⟨0.0000003, 0.0⟩),
   (decide (vendorLower = "amazon") && outs.contains "IMAGE",
      ⟨0.0000080, 0.0010000⟩)]

/-- Modelled from the spec: first-match lookup in §4.2's rule table
(case-insensitive on vendor), with the generic fallback tier when no
row matches.  `id` is the model identifier as offered to substring
matching — the claim's literal reading passes the record's `modelId`
unchanged, the corrected reading passes it lower-cased. -/
def specDefaultPricing (vendor id : String) (outs : List String) : PriceTier :=
  firstMatch (specRows (pyLower vendor) id outs) ⟨0.0000100, 0.0000300⟩

/-- A sample record with legacy flat-rate on-demand pricing for vendor
`Anthropic` (multiplier 3.0). -/
def anthFlatModel : ModelRecord :=
  { modelId := "anthropic.claude-v2", provider := "bedrock", vendor := "Anthropic",
    capabilities := ⟨⟨["TEXT"], ["TEXT"]⟩⟩, access := ⟨true, false⟩,
    costPerToken := some ⟨some (.flat 0.000008), none⟩,
    aliases := none, status := none, modality := none, llmgateway := none }

/-- C1: after `normalize_cost_structure`, the record's `costPerToken`
always carries an `onDemand` entry, and carries a `provisioned` entry
iff `access.provisionable` is true or the input `costPerToken` already
contained a `provisioned` entry. -/
theorem normalize_cost_structure_tier_presence (m : ModelRecord) :
    ∃ cpt, (normalize_cost_structure m).costPerToken = some cpt ∧
      cpt.onDemand.isSome = true ∧
      (cpt.provisioned.isSome = true ↔
        (m.access.provisionable = true ∨
          ∃ c, m.costPerToken = some c ∧ c.provisioned.isSome = true)) := by
  rcases m with ⟨mid, pr, ve, ca, ⟨aod, apv⟩, cpt, al, st, mo, ll⟩
  rcases cpt with _ | ⟨od, pv⟩
  · refine ⟨_, rfl, ?_⟩
    simp only [normalize_cost_structure, get_default_pricing]
    cases apv <;> simp
  · refine ⟨_, rfl, rfl, ?_⟩
    rcases pv with _ | (r | ⟨i, o⟩ | s) <;>
      cases apv <;>
      simp [normalize_cost_structure, get_default_pricing]

/-- C2: a flat scalar tier (`onDemand` or `provisioned`) is replaced
by `{input := r, output := r * mult}` where `mult` is the
`VENDOR_MULTIPLIERS` entry for the lower-cased vendor (table default
when absent) — `get_multiplier` is by definition exactly that lookup;
in particular the Anthropic sample (multiplier 3.0) normalizes a flat
rate `0.000008` to `{input := 0.000008, output := 0.000024}`. -/
theorem normalize_cost_structure_flat_rate :
    (∀ (m : ModelRecord) (c : CostPT) (r : ℚ), m.costPerToken = some c →
      ((c.onDemand = some (.flat r) →
          ∃ c2, (normalize_cost_structure m).costPerToken = some c2 ∧
            c2.onDemand = some (.split r (r * get_multiplier (pyLower m.vendor)))) ∧
       (c.provisioned = some (.flat r) →
          ∃ c2, (normalize_cost_structure m).costPerToken = some c2 ∧
            c2.provisioned = some (.split r (r * get_multiplier (pyLower m.vendor)))))) ∧
    get_multiplier (pyLower anthFlatModel.vendor) = 3 ∧
    (normalize_cost_structure anthFlatModel).costPerToken
      = some ⟨some (.split 0.000008 0.000024), none⟩ := by
  refine ⟨fun m c r hm => ⟨fun h1 => ?_, fun h2 => ?_⟩, ?_, ?_⟩
  · rcases c with ⟨od, pv⟩
    simp only at h1
    subst h1
    simp only [normalize_cost_structure, hm]
    exact ⟨_, rfl, rfl⟩
  · rcases c with ⟨od, pv⟩
    simp only at h2
    subst h2
    simp only [normalize_cost_structure, hm]
    exact ⟨_, rfl, rfl⟩
  · have h : get_multiplier (pyLower anthFlatModel.vendor) = (3.0 : ℚ) := rfl
    rw [h]; norm_num
  · have h : (normalize_cost_structure anthFlatModel).costPerToken
        = some ⟨some (.split 0.000008 (0.000008 * (3.0 : ℚ))), none⟩ := rfl
    rw [h]
    norm_num

/-- Witness for C2: the flat-rate rule applied at the concrete
Anthropic sample record. -/
theorem normalize_cost_structure_flat_rate_witness :
    ∃ c2, (normalize_cost_structure anthFlatModel).costPerToken = some c2 ∧
      c2.onDemand = some (.split 0.000008
        (0.000008 * get_multiplier (pyLower anthFlatModel.vendor))) :=
  (normalize_cost_structure_flat_rate.1 anthFlatModel
    ⟨some (.flat 0.000008), none⟩ 0.000008 rfl).1 rfl

/-- C8: `normalize_cost_structure` is idempotent. -/
theorem normalize_cost_structure_idempotent (m : ModelRecord) :
    normalize_cost_structure (normalize_cost_structure m)
      = normalize_cost_structure m := by
  rcases m with ⟨mid, pr, ve, ca, ⟨aod, apv⟩, cpt, al, st, mo, ll⟩
  rcases cpt with _ | ⟨od, pv⟩
  · cases apv <;>
      simp [normalize_cost_structure, get_default_pricing]
  · rcases od with _ | (r | ⟨i, o⟩ | s) <;>
      rcases pv with _ | (r2 | ⟨i2, o2⟩ | s2) <;>
      cases apv <;>
      simp [normalize_cost_structure, get_default_pricing]

/-- C10: the cleaned record consists of exactly the six fields
`modelId`, `provider`, `vendor`, `capabilities`, `access`,
`costPerToken`, in that order; the first five carry the input's values
unchanged, `costPerToken` the normalized cost structure; `aliases`,
`status`, `modality` and `llmgateway` are absent. -/
theorem clean_model_config_fields (m : ModelRecord) :
    (clean_model_config m).map Prod.fst
        = ["modelId", "provider", "vendor", "capabilities", "access",
           "costPerToken"] ∧
    List.lookup "modelId" (clean_model_config m) = some (.str m.modelId) ∧
    List.lookup "provider" (clean_model_config m) = some (.str m.provider) ∧
    List.lookup "vendor" (clean_model_config m) = some (.str m.vendor) ∧
    List.lookup "capabilities" (clean_model_config m)
        = some (.caps m.capabilities) ∧
    List.lookup "access" (clean_model_config m) = some (.acc m.access) ∧
    List.lookup "costPerToken" (clean_model_config m)
        = some (.cost (normalize_cost_structure m).costPerToken) ∧
    List.lookup "aliases" (clean_model_config m) = none ∧
    List.lookup "status" (clean_model_config m) = none ∧
    List.lookup "modality" (clean_model_config m) = none ∧
    List.lookup "llmgateway" (clean_model_config m) = none :=
  ⟨rfl, rfl, rfl, rfl, rfl, rfl, rfl, rfl, rfl, rfl, rfl⟩

/-- A provisionable record that supplies its own (already split)
on-demand pricing but no provisioned pricing. -/
def provCexModel : ModelRecord :=
  { modelId := "custom-model", provider := "bedrock", vendor := "anthropic",
    capabilities := ⟨⟨["TEXT"], ["TEXT"]⟩⟩, access := ⟨true, true⟩,
    costPerToken := some ⟨some (.split 0.001 0.002), none⟩,
    aliases := none, status := none, modality := none, llmgateway := none }

/-- C4 counterexample: for `provCexModel` the resulting `onDemand`
tier is the supplied `{0.001, 0.002}`, but the synthesized
`provisioned` tier is `{0.000008, 0.000024}` — 80% of the *default*
pricing `{0.00001, 0.00003}` — and `0.000008 ≠ 0.8 * 0.001`, so the
synthesized tier is not 80% of the resulting on-demand tier. -/
theorem provisioned_eighty_percent_counterexample :
    (normalize_cost_structure provCexModel).costPerToken
        = some ⟨some (.split 0.001 0.002), some (.split 0.000008 0.000024)⟩ ∧
    (0.000008 : ℚ) ≠ 0.8 * 0.001 ∧ (0.000024 : ℚ) ≠ 0.8 * 0.002 := by
  refine ⟨?_, by norm_num, by norm_num⟩
  have h : (normalize_cost_structure provCexModel).costPerToken
      = some ⟨some (.split 0.001 0.002),
              some (.split (0.0000100 * (0.8 : ℚ)) (0.0000300 * (0.8 : ℚ)))⟩ := rfl
  rw [h]
  norm_num

/-- C4 amended: a provisionable record without supplied provisioned
pricing receives a provisioned tier equal to 80% of the *default*
on-demand pricing for the record (`default_on_demand`), componentwise
— which coincides with 80% of the resulting on-demand tier only when
that tier itself was synthesized from the defaults. -/
theorem normalize_provisioned_synthesized (m : ModelRecord)
    (hp : m.access.provisionable = true)
    (hnone : m.costPerToken = none ∨
      ∃ c, m.costPerToken = some c ∧ c.provisioned = none) :
    ∃ c2, (normalize_cost_structure m).costPerToken = some c2 ∧
      c2.provisioned = some (.split ((default_on_demand m).input * 0.8)
        ((default_on_demand m).output * 0.8)) := by
  rcases m with ⟨mid, pr, ve, ca, ⟨aod, apv⟩, cpt, al, st, mo, ll⟩
  simp only at hp
  subst hp
  rcases cpt with _ | ⟨od, pv⟩
  · refine ⟨_, rfl, ?_⟩
    simp [normalize_cost_structure, get_default_pricing]
  · have hpv : pv = none := by
      rcases hnone with h | ⟨c, hc, hcp⟩
      · exact absurd h (by simp)
      · injection hc with hc2
        subst hc2
        exact hcp
    subst hpv
    refine ⟨_, rfl, ?_⟩
    simp [normalize_cost_structure, get_default_pricing]

/-- A provisionable record with no cost data at all. -/
def provSynthModel : ModelRecord :=
  { modelId := "anthropic.claude-3-haiku-20240307-v1:0", provider := "bedrock",
    vendor := "Anthropic", capabilities := ⟨⟨["TEXT"], ["TEXT"]⟩⟩,
    access := ⟨true, true⟩, costPerToken := none,
    aliases := none, status := none, modality := none, llmgateway := none }

/-- Witness for the amended C4 at a concrete provisionable record. -/
theorem normalize_provisioned_synthesized_witness :
    ∃ c2, (normalize_cost_structure provSynthModel).costPerToken = some c2 ∧
      c2.provisioned = some (.split ((default_on_demand provSynthModel).input * 0.8)
        ((default_on_demand provSynthModel).output * 0.8)) :=
  normalize_provisioned_synthesized provSynthModel rfl (Or.inl rfl)

/-- The `(vendor, entry)` pairs the organizer must place under
`READY/ONDEMAND`: one per model with `access.onDemand` true. -/
def odPairs (cat : List VendorGroup) : List (String × SModel) :=
  (catPairs cat).filterMap fun p =>
    if p.2.access.onDemand then some (statusEntry p) else none

/-- The `(vendor, entry)` pairs the organizer must place under
`NOT_READY`: one per model with `access.onDemand` false. -/
def nrPairs (cat : List VendorGroup) : List (String × SModel) :=
  (catPairs cat).filterMap fun p =>
    if p.2.access.onDemand then none else some (statusEntry p)

theorem bucketPairs_cons (b : Bucket) (bs : List Bucket) :
    bucketPairs (b :: bs)
      = (b.models.map fun m => (b.name, m)) ++ bucketPairs bs := by
  simp [bucketPairs]

theorem bucketPairs_addToVendor (vn : String) (e : SModel) (bs : List Bucket) :
    (bucketPairs (addToVendor vn e bs)).Perm (bucketPairs bs ++ [(vn, e)]) := by
  induction bs with
  | nil => simp [addToVendor, bucketPairs]
  | cons b bs ih =>
      by_cases h : b.name = vn
      · simp only [addToVendor, if_pos h, bucketPairs_cons]
        rw [List.map_append, h]
        simp only [List.map_cons, List.map_nil, List.append_assoc]
        exact (List.Perm.append_left _ (List.perm_append_comm))
      · simp only [addToVendor, if_neg h, bucketPairs_cons]
        calc ((b.models.map fun m => (b.name, m)) ++ bucketPairs (addToVendor vn e bs)).Perm
              ((b.models.map fun m => (b.name, m)) ++ (bucketPairs bs ++ [(vn, e)])) :=
              List.Perm.append_left _ ih
          _ = ((b.models.map fun m => (b.name, m)) ++ bucketPairs bs) ++ [(vn, e)] := by
              rw [List.append_assoc]

theorem statusStep_fold (vn : String) (ms : List ModelRecord)
    (st : List Bucket × List Bucket) :
    (bucketPairs (ms.foldl (statusStep vn) st).1).Perm
      (bucketPairs st.1 ++ (ms.filterMap fun m =>
        if m.access.onDemand then
          some (vn, (⟨m.modelId, "ONDEMAND"⟩ : SModel)) else none)) ∧
    (bucketPairs (ms.foldl (statusStep vn) st).2).Perm
      (bucketPairs st.2 ++ (ms.filterMap fun m =>
        if m.access.onDemand then none
        else some (vn, (⟨m.modelId, "ONDEMAND"⟩ : SModel)))) := by
  induction ms generalizing st with
  | nil => simp
  | cons m ms ih =>
      cases hod : m.access.onDemand
      · have step : statusStep vn st m
            = (st.1, addToVendor vn ⟨m.modelId, "ONDEMAND"⟩ st.2) := by
          simp [statusStep, hod]
        constructor
        · simpa [step, hod] using
            (ih (st.1, addToVendor vn ⟨m.modelId, "ONDEMAND"⟩ st.2)).1
        · have h1 := (ih (st.1, addToVendor vn ⟨m.modelId, "ONDEMAND"⟩ st.2)).2
          have h2 := (bucketPairs_addToVendor vn ⟨m.modelId, "ONDEMAND"⟩ st.2).append_right
            (ms.filterMap fun m => if m.access.onDemand then none
              else some (vn, (⟨m.modelId, "ONDEMAND"⟩ : SModel)))
          simpa [step, hod, List.append_assoc] using h1.trans h2
      · have step : statusStep vn st m
            = (addToVendor vn ⟨m.modelId, "ONDEMAND"⟩ st.1, st.2) := by
          simp [statusStep, hod]
        constructor
        · have h1 := (ih (addToVendor vn ⟨m.modelId, "ONDEMAND"⟩ st.1, st.2)).1
          have h2 := (bucketPairs_addToVendor vn ⟨m.modelId, "ONDEMAND"⟩ st.1).append_right
            (ms.filterMap fun m => if m.access.onDemand then
              some (vn, (⟨m.modelId, "ONDEMAND"⟩ : SModel)) else none)
          simpa [step, hod, List.append_assoc] using h1.trans h2
        · simpa [step, hod] using
            (ih (addToVendor vn ⟨m.modelId, "ONDEMAND"⟩ st.1, st.2)).2

theorem odPairs_cons (v : VendorGroup) (cat : List VendorGroup) :
    odPairs (v :: cat)
      = (v.models.filterMap fun m =>
          if m.access.onDemand then
            some (v.name, (⟨m.modelId, "ONDEMAND"⟩ : SModel)) else none)
        ++ odPairs cat := by
  simp [odPairs, catPairs, List.filterMap_map, Function.comp_def, statusEntry]

theorem nrPairs_cons (v : VendorGroup) (cat : List VendorGroup) :
    nrPairs (v :: cat)
      = (v.models.filterMap fun m =>
          if m.access.onDemand then none
          else some (v.name, (⟨m.modelId, "ONDEMAND"⟩ : SModel)))
        ++ nrPairs cat := by
  simp [nrPairs, catPairs, List.filterMap_map, Function.comp_def, statusEntry]

theorem organize_fold (cat : List VendorGroup) (st : List Bucket × List Bucket) :
    (bucketPairs (cat.foldl
        (fun st v => v.models.foldl (statusStep v.name) st) st).1).Perm
      (bucketPairs st.1 ++ odPairs cat) ∧
    (bucketPairs (cat.foldl
        (fun st v => v.models.foldl (statusStep v.name) st) st).2).Perm
      (bucketPairs st.2 ++ nrPairs cat) := by
  induction cat generalizing st with
  | nil => simp [odPairs, nrPairs, catPairs]
  | cons v cat ih =>
      have hinner := statusStep_fold v.name v.models st
      constructor
      · have h1 := (ih (v.models.foldl (statusStep v.name) st)).1
        have h2 := hinner.1.append_right (odPairs cat)
        simpa [odPairs_cons, List.append_assoc] using h1.trans h2
      · have h1 := (ih (v.models.foldl (statusStep v.name) st)).2
        have h2 := hinner.2.append_right (nrPairs cat)
        simpa [nrPairs_cons, List.append_assoc] using h1.trans h2

theorem pairs_partition_perm (l : List (String × ModelRecord)) :
    ((l.filterMap fun p =>
        if p.2.access.onDemand then some (statusEntry p) else none) ++
     (l.filterMap fun p =>
        if p.2.access.onDemand then none else some (statusEntry p))).Perm
      (l.map statusEntry) := by
  induction l with
  | nil => simp
  | cons p l ih =>
      cases h : p.2.access.onDemand
      · simp only [List.filterMap_cons, h, Bool.false_eq_true, if_false,
          List.map_cons]
        exact List.perm_middle.trans (ih.cons (statusEntry p))
      · simp only [List.filterMap_cons, h, if_true, List.cons_append,
          List.map_cons]
        exact ih.cons (statusEntry p)

/-- C5: the organizer's output is the fixed two-branch shape; the
`READY/ONDEMAND` branch holds exactly one `{modelId, billing :=
"ONDEMAND"}` entry under its vendor for every model with
`access.onDemand` true, the `NOT_READY` branch exactly one for every
other model; together the two branches are exactly the full model set
(no duplicate, no omission); and the `READY/PROVISIONED` connection is
present with an empty vendor list. -/
theorem organize_status_data_partition (cat : List VendorGroup) :
    ∃ od nr, organize_status_data cat
        = ⟨[⟨"ONDEMAND", od⟩, ⟨"PROVISIONED", []⟩], nr⟩ ∧
      (bucketPairs od).Perm (odPairs cat) ∧
      (bucketPairs nr).Perm (nrPairs cat) ∧
      (bucketPairs od ++ bucketPairs nr).Perm ((catPairs cat).map statusEntry) := by
  refine ⟨_, _, rfl, ?_, ?_, ?_⟩
  · simpa [bucketPairs] using (organize_fold cat ([], [])).1
  · simpa [bucketPairs] using (organize_fold cat ([], [])).2
  · have h1 := (organize_fold cat ([], [])).1
    have h2 := (organize_fold cat ([], [])).2
    simp only [bucketPairs, List.flatMap_nil, List.nil_append] at h1 h2
    exact ((h1.append h2).trans (pairs_partition_perm (catPairs cat)))

/-- An Anthropic record whose model identifier is upper-cased. -/
def upperCaseIdModel : ModelRecord :=
  { modelId := "CLAUDE-3-OPUS-TEST", provider := "bedrock", vendor := "anthropic",
    capabilities := ⟨⟨["TEXT"], ["TEXT"]⟩⟩, access := ⟨true, false⟩,
    costPerToken := none,
    aliases := none, status := none, modality := none, llmgateway := none }

/-- C3 counterexample to the literal reading: the code lower-cases the
model identifier before substring matching, so for the upper-cased
identifier `"CLAUDE-3-OPUS-TEST"` it picks the claude-3-opus row,
while the table with literal substring matching on the identifier
matches no row and falls back to the generic default. -/
theorem default_pricing_spec_literal_counterexample :
    (get_default_pricing upperCaseIdModel).onDemand = ⟨0.0000150, 0.0000450⟩ ∧
    specDefaultPricing upperCaseIdModel.vendor upperCaseIdModel.modelId
        upperCaseIdModel.capabilities.modalities.output = ⟨0.0000100, 0.0000300⟩ ∧
    (get_default_pricing upperCaseIdModel).onDemand
      ≠ specDefaultPricing upperCaseIdModel.vendor upperCaseIdModel.modelId
          upperCaseIdModel.capabilities.modalities.output := by
  refine ⟨rfl, rfl, ?_⟩
  have h1 : (get_default_pricing upperCaseIdModel).onDemand
      = (⟨0.0000150, 0.0000450⟩ : PriceTier) := rfl
  have h2 : specDefaultPricing upperCaseIdModel.vendor upperCaseIdModel.modelId
      upperCaseIdModel.capabilities.modalities.output
      = (⟨0.0000100, 0.0000300⟩ : PriceTier) := rfl
  intro hEq
  rw [h1, h2] at hEq
  have hin := congrArg PriceTier.input hEq
  norm_num at hin

/-- A model whose lower-cased identifier contains `"claude-3"` but
none of the three more specific claude-3 patterns. -/
def genericClaude3Model : ModelRecord :=
  { modelId := "anthropic.claude-3-5-test-v1:0", provider := "bedrock",
    vendor := "Anthropic", capabilities := ⟨⟨["TEXT"], ["TEXT"]⟩⟩,
    access := ⟨true, false⟩, costPerToken := none,
    aliases := none, status := none, modality := none, llmgateway := none }

/-- C3 amended: with the model identifier lower-cased before the
substring search (as the code does), `get_default_pricing`'s on-demand
tier is exactly the first-match evaluation of the spec's ordered rule
table, with the generic `1.0e-5 / 3.0e-5` fallback when no row
matches; and the generic-claude-3 sample gets `8.0e-6 / 2.4e-5`. -/
theorem default_pricing_matches_spec_table :
    (∀ m : ModelRecord,
      (get_default_pricing m).onDemand
        = specDefaultPricing m.vendor (pyLower m.modelId)
            m.capabilities.modalities.output) ∧
    (get_default_pricing genericClaude3Model).onDemand = ⟨0.0000080, 0.0000240⟩ := by
  refine ⟨fun m => ?_, rfl⟩
  show default_on_demand m = _
  simp only [specDefaultPricing, specRows, firstMatch, default_on_demand]
  by_cases hA : pyLower m.vendor = "anthropic"
  · by_cases h1 : strContains (pyLower m.modelId) "claude-3-opus" = true
    · simp +decide [hA, h1]
    · by_cases h2 : strContains (pyLower m.modelId) "claude-3-sonnet" = true
      · simp +decide [hA, h1, h2]
      · by_cases h3 : strContains (pyLower m.modelId) "claude-3-haiku" = true
        · simp +decide [hA, h1, h2, h3]
        · by_cases h4 : strContains (pyLower m.modelId) "claude-3" = true
          · simp +decide [hA, h1, h2, h3, h4]
          · simp +decide [hA, h1, h2, h3, h4]
  · by_cases hM : pyLower m.vendor = "meta"
    · by_cases h1 : strContains (pyLower m.modelId) "70b" = true
      · simp +decide [hA, hM, h1]
      · simp +decide [hA, hM, h1]
    · by_cases hMi : pyLower m.vendor = "mistral ai"
      · by_cases h1 : strContains (pyLower m.modelId) "large" = true
        · simp +decide [hA, hM, hMi, h1]
        · by_cases h2 : strContains (pyLower m.modelId) "small" = true
          · simp +decide [hA, hM, hMi, h1, h2]
          · simp +decide [hA, hM, hMi, h1, h2]
      · by_cases hAm : pyLower m.vendor = "amazon"
        · by_cases h1 : m.capabilities.modalities.output.contains "EMBEDDING" = true
          · simp +decide [hA, hM, hMi, hAm, h1]
          · by_cases h2 : m.capabilities.modalities.output.contains "IMAGE" = true
            · simp +decide [hA, hM, hMi, hAm, h1, h2]
            · simp +decide [hA, hM, hMi, hAm, h1, h2]
        · simp +decide [hA, hM, hMi, hAm]

theorem digitChar_isDigit (d : ℕ) (h : d < 10) :
    (Nat.digitChar d).isDigit = true := by
  interval_cases d <;> decide

theorem natCharsAux_digits (fuel : ℕ) :
    ∀ (n : ℕ) (acc : List Char), (∀ c ∈ acc, c.isDigit = true) →
      ∀ c ∈ natCharsAux fuel n acc, c.isDigit = true := by
  induction fuel with
  | zero => intro n acc hacc c hc; exact hacc c hc
  | succ fuel ih =>
      intro n acc hacc c hc
      simp only [natCharsAux] at hc
      by_cases h : n < 10
      · rw [if_pos h] at hc
        rcases List.mem_cons.mp hc with rfl | hc
        · exact digitChar_isDigit _ (Nat.mod_lt _ (by norm_num))
        · exact hacc c hc
      · rw [if_neg h] at hc
        refine ih (n / 10) _ ?_ c hc
        intro c2 hc2
        rcases List.mem_cons.mp hc2 with rfl | hc2
        · exact digitChar_isDigit _ (Nat.mod_lt _ (by norm_num))
        · exact hacc c2 hc2

theorem natChars_digits (n : ℕ) : ∀ c ∈ natChars n, c.isDigit = true :=
  natCharsAux_digits (n + 1) n [] (by simp)

theorem natCharsAux_length (fuel : ℕ) :
    ∀ (n : ℕ) (acc : List Char),
      acc.length ≤ (natCharsAux fuel n acc).length := by
  induction fuel with
  | zero => intro n acc; exact le_refl _
  | succ fuel ih =>
      intro n acc
      simp only [natCharsAux]
      by_cases h : n < 10
      · rw [if_pos h]; simp
      · rw [if_neg h]
        calc acc.length ≤ (Nat.digitChar (n % 10) :: acc).length := by simp
          _ ≤ _ := ih (n / 10) _

theorem natChars_ne_nil (n : ℕ) : natChars n ≠ [] := by
  unfold natChars
  simp only [natCharsAux]
  by_cases h : n < 10
  · rw [if_pos h]; simp
  · rw [if_neg h]
    intro hnil
    have hlen := natCharsAux_length n (n / 10) [Nat.digitChar (n % 10)]
    rw [hnil] at hlen
    simp at hlen

theorem isDigit_ne_special {c : Char} (h : c.isDigit = true) :
    c ≠ '.' ∧ c ≠ '-' ∧ c ≠ 'e' ∧ c ≠ 'E' := by
  refine ⟨fun hc => ?_, fun hc => ?_, fun hc => ?_, fun hc => ?_⟩ <;>
    subst hc <;> exact absurd h (by decide)

theorem rstripChar_eq_rdropWhile (c : Char) (s : List Char) :
    rstripChar c s = List.rdropWhile (eqChar c) s := rfl

theorem strip_dot_pad (A pad : List Char) (a : Char)
    (hA : A.getLast? = some a) (ha : a.isDigit = true)
    (hpad : ∀ c ∈ pad, c.isDigit = true) :
    rstripChar '.' (rstripChar '0' (A ++ '.' :: pad))
      = A ++ (if List.rdropWhile (eqChar '0') pad = [] then []
              else '.' :: List.rdropWhile (eqChar '0') pad) := by
  rw [rstripChar_eq_rdropWhile, rstripChar_eq_rdropWhile]
  have hAne : A ≠ [] := by
    intro h0
    rw [h0] at hA
    exact Option.noConfusion hA
  have hAlast : ∀ h : A ≠ [], ¬ (eqChar '.' (A.getLast h) = true) := by
    intro h hcontra
    have h1 : A.getLast? = some (A.getLast h) :=
      List.getLast?_eq_getLast_of_ne_nil h
    rw [hA] at h1
    have h2 : a = A.getLast h := by
      injection h1 with h2
    simp only [eqChar, decide_eq_true_eq] at hcontra
    exact (isDigit_ne_special ha).1 (by rw [h2, hcontra])
  revert hpad
  induction pad using List.reverseRecOn with
  | nil =>
      intro _
      have h1 : A ++ '.' :: ([] : List Char) = A ++ ['.'] := rfl
      rw [h1, List.rdropWhile_concat_neg _ _ _ (by decide),
        List.rdropWhile_concat_pos _ _ _ (by decide),
        List.rdropWhile_eq_self_iff.mpr ?_]
      · simp [List.rdropWhile_nil]
      · exact hAlast
  | append_singleton pad2 x ih =>
      intro hpad
      by_cases hx : x = '0'
      · subst hx
        have h1 : A ++ '.' :: (pad2 ++ ['0']) = (A ++ '.' :: pad2) ++ ['0'] := by
          simp
        rw [h1, List.rdropWhile_concat_pos _ _ _ (by decide),
          ih (fun c hc => hpad c (by simp [hc])),
          List.rdropWhile_concat_pos _ _ _ (by decide)]
      · have hxd : x.isDigit = true := hpad x (by simp)
        have hx0 : ¬ (eqChar '0' x = true) := by
          simp [eqChar, hx]
        have hxdot : ¬ (eqChar '.' x = true) := by
          simp only [eqChar, decide_eq_true_eq]
          exact (isDigit_ne_special hxd).1
        have h1 : A ++ '.' :: (pad2 ++ [x]) = (A ++ '.' :: pad2) ++ [x] := by
          simp
        rw [h1, List.rdropWhile_concat_neg _ _ _ hx0,
          List.rdropWhile_concat_neg _ _ _ hxdot,
          List.rdropWhile_concat_neg _ _ _ hx0]
        simp

theorem pad_digits (P n : ℕ) :
    ∀ c ∈ (List.replicate (P - (natChars n).length) '0' ++ natChars n),
      c.isDigit = true := by
  intro c hc
  rcases List.mem_append.mp hc with h | h
  · rw [List.eq_of_mem_replicate h]; decide
  · exact natChars_digits _ _ h

theorem shape_no_exponent {sgn I fp : List Char}
    (hs : sgn = [] ∨ sgn = ['-'])
    (hI2 : ∀ c ∈ I, c.isDigit = true)
    (hf : fp = [] ∨ ∃ fd, fp = '.' :: fd ∧ fd ≠ [] ∧
      (∀ c ∈ fd, c.isDigit = true) ∧ fd.getLast? ≠ some '0') :
    ∀ c ∈ sgn ++ I ++ fp, c ≠ 'e' ∧ c ≠ 'E' := by
  intro c hc
  simp only [List.append_assoc, List.mem_append] at hc
  rcases hc with h | h | h
  · rcases hs with rfl | rfl
    · simp at h
    · simp only [List.mem_singleton] at h
      subst h
      exact ⟨by decide, by decide⟩
  · have := isDigit_ne_special (hI2 c h)
    exact ⟨this.2.2.1, this.2.2.2⟩
  · rcases hf with rfl | ⟨fd, rfl, _, hfd, _⟩
    · simp at h
    · rcases List.mem_cons.mp h with rfl | h
      · exact ⟨by decide, by decide⟩
      · have := isDigit_ne_special (hfd c h)
        exact ⟨this.2.2.1, this.2.2.2⟩

theorem build_shape {res sgn I fp : List Char}
    (heq : res = sgn ++ I ++ fp)
    (hs : sgn = [] ∨ sgn = ['-'])
    (hI1 : I ≠ []) (hI2 : ∀ c ∈ I, c.isDigit = true)
    (hf : fp = [] ∨ ∃ fd, fp = '.' :: fd ∧ fd ≠ [] ∧
      (∀ c ∈ fd, c.isDigit = true) ∧ fd.getLast? ≠ some '0') :
    ∃ sgn2 I2 fp2, res = sgn2 ++ I2 ++ fp2 ∧
      (sgn2 = [] ∨ sgn2 = ['-']) ∧
      I2 ≠ [] ∧ (∀ c ∈ I2, c.isDigit = true) ∧
      (fp2 = [] ∨ ∃ fd, fp2 = '.' :: fd ∧ fd ≠ [] ∧
        (∀ c ∈ fd, c.isDigit = true) ∧ fd.getLast? ≠ some '0') ∧
      (∀ c ∈ res, c ≠ 'e' ∧ c ≠ 'E') := by
  subst heq
  exact ⟨sgn, I, fp, rfl, hs, hI1, hI2, hf, shape_no_exponent hs hI2 hf⟩

theorem sign_cases (q : ℚ) :
    (if q < 0 then ['-'] else ([] : List Char)) = [] ∨
    (if q < 0 then ['-'] else ([] : List Char)) = ['-'] := by
  by_cases hq : q < 0 <;> simp [hq]

/-- C6: the serializer output decomposes as optional sign, a nonempty
run of integer digits, and an optional fraction part that, when
present, starts with the point, is nonempty, and does not end in `'0'`
(trailing zeros stripped, point stripped when the fraction empties);
no exponent character occurs; and the value `0.0000013` at precision
10 renders as the literal string `"0.0000013"`. -/
theorem format_float_shape :
    (∀ (q : ℚ) (P : ℕ), ∃ sgn ipart fpart,
      format_float q P = sgn ++ ipart ++ fpart ∧
      (sgn = [] ∨ sgn = ['-']) ∧
      ipart ≠ [] ∧ (∀ c ∈ ipart, c.isDigit = true) ∧
      (fpart = [] ∨ ∃ fd, fpart = '.' :: fd ∧ fd ≠ [] ∧
        (∀ c ∈ fd, c.isDigit = true) ∧ fd.getLast? ≠ some '0') ∧
      (∀ c ∈ format_float q P, c ≠ 'e' ∧ c ≠ 'E')) ∧
    format_float (0.0000013 : ℚ) 10 = "0.0000013".data := by
  constructor
  · intro q P
    by_cases hP : P = 0
    · subst hP
      have hfc : fixedChars q 0
          = ((if q < 0 then ['-'] else []) ++
              natChars ((roundHalfEven (|q| * 10 ^ 0)).toNat / 10 ^ 0)) ++ [] := rfl
      have hdot : ¬ ('.' ∈ fixedChars q 0) := by
        rw [hfc]
        intro hmem
        simp only [List.append_nil, List.mem_append] at hmem
        rcases hmem with h | h
        · by_cases hq : q < 0
          · rw [if_pos hq] at h
            simp only [List.mem_singleton] at h
            exact absurd h (by decide)
          · rw [if_neg hq] at h
            simp at h
        · exact (isDigit_ne_special (natChars_digits _ _ h)).1 rfl
      have heq : format_float q 0
          = ((if q < 0 then ['-'] else []) ++
              natChars ((roundHalfEven (|q| * 10 ^ 0)).toNat / 10 ^ 0)) ++ [] := by
        simp only [format_float]
        rw [if_neg hdot]
        exact hfc
      exact build_shape heq (sign_cases q)
        (natChars_ne_nil ((roundHalfEven (|q| * 10 ^ 0)).toNat / 10 ^ 0))
        (natChars_digits _) (Or.inl rfl)
    · have hfc : fixedChars q P
          = ((if q < 0 then ['-'] else []) ++
              natChars ((roundHalfEven (|q| * 10 ^ P)).toNat / 10 ^ P)) ++
            '.' :: (List.replicate
                (P - (natChars ((roundHalfEven (|q| * 10 ^ P)).toNat % 10 ^ P)).length) '0'
              ++ natChars ((roundHalfEven (|q| * 10 ^ P)).toNat % 10 ^ P)) := by
        simp only [fixedChars, if_neg hP]
      have hdot : '.' ∈ fixedChars q P := by
        rw [hfc]; simp
      have hff : format_float q P
          = rstripChar '.' (rstripChar '0' (fixedChars q P)) := by
        simp only [format_float]
        rw [if_pos hdot]
      have hIne := natChars_ne_nil ((roundHalfEven (|q| * 10 ^ P)).toNat / 10 ^ P)
      have hA : ((if q < 0 then ['-'] else []) ++
            natChars ((roundHalfEven (|q| * 10 ^ P)).toNat / 10 ^ P)).getLast?
          = some ((natChars ((roundHalfEven (|q| * 10 ^ P)).toNat / 10 ^ P)).getLast
              hIne) := by
        rw [List.getLast?_append_of_ne_nil _ hIne]
        exact List.getLast?_eq_getLast_of_ne_nil hIne
      have ha : ((natChars ((roundHalfEven (|q| * 10 ^ P)).toNat / 10 ^ P)).getLast
          hIne).isDigit = true :=
        natChars_digits _ _ (List.getLast_mem hIne)
      have hstrip := strip_dot_pad _ _ _ hA ha
        (pad_digits P ((roundHalfEven (|q| * 10 ^ P)).toNat % 10 ^ P))
      have hres : format_float q P
          = ((if q < 0 then ['-'] else []) ++
              natChars ((roundHalfEven (|q| * 10 ^ P)).toNat / 10 ^ P)) ++
            (if List.rdropWhile (eqChar '0')
                (List.replicate
                  (P - (natChars ((roundHalfEven (|q| * 10 ^ P)).toNat % 10 ^ P)).length) '0'
                ++ natChars ((roundHalfEven (|q| * 10 ^ P)).toNat % 10 ^ P)) = []
             then []
             else '.' :: List.rdropWhile (eqChar '0')
                (List.replicate
                  (P - (natChars ((roundHalfEven (|q| * 10 ^ P)).toNat % 10 ^ P)).length) '0'
                ++ natChars ((roundHalfEven (|q| * 10 ^ P)).toNat % 10 ^ P))) := by
        rw [hff, hfc, hstrip]
      by_cases hu : List.rdropWhile (eqChar '0')
          (List.replicate
            (P - (natChars ((roundHalfEven (|q| * 10 ^ P)).toNat % 10 ^ P)).length) '0'
          ++ natChars ((roundHalfEven (|q| * 10 ^ P)).toNat % 10 ^ P)) = []
      · rw [if_pos hu] at hres
        exact build_shape hres (sign_cases q) hIne (natChars_digits _) (Or.inl rfl)
      · rw [if_neg hu] at hres
        have hu2 := List.rdropWhile_last_not (eqChar '0')
          (List.replicate
            (P - (natChars ((roundHalfEven (|q| * 10 ^ P)).toNat % 10 ^ P)).length) '0'
          ++ natChars ((roundHalfEven (|q| * 10 ^ P)).toNat % 10 ^ P)) hu
        refine build_shape hres (sign_cases q) hIne (natChars_digits _)
          (Or.inr ⟨_, rfl, hu, ?_, ?_⟩)
        · intro c hc
          exact pad_digits P ((roundHalfEven (|q| * 10 ^ P)).toNat % 10 ^ P) c
            ((List.rdropWhile_prefix (eqChar '0') _).subset hc)
        · rw [List.getLast?_eq_getLast_of_ne_nil hu]
          intro hcontra
          injection hcontra with h0
          apply hu2
          simp [eqChar, h0]
  · have hq13 : (|(0.0000013 : ℚ)| * 10 ^ 10) = 13000 := by
      rw [abs_of_nonneg (by norm_num : (0 : ℚ) ≤ 0.0000013)]
      norm_num
    have hr : roundHalfEven (|(0.0000013 : ℚ)| * 10 ^ 10) = 13000 := by
      rw [hq13]; norm_num [roundHalfEven]
    have h0 : ¬ ((0.0000013 : ℚ) < 0) := by norm_num
    simp only [format_float, fixedChars, hr, if_neg h0]
    decide

theorem digitsVal_from (a : ℕ) (l : List Char) :
    l.foldl (fun a c => 10 * a + (c.toNat - 48)) a
      = a * 10 ^ l.length + digitsVal l := by
  induction l generalizing a with
  | nil => simp [digitsVal]
  | cons c l ih =>
      simp only [List.foldl_cons, List.length_cons]
      rw [ih (10 * a + (c.toNat - 48))]
      have h2 : digitsVal (c :: l) = (10 * 0 + (c.toNat - 48)) * 10 ^ l.length
          + digitsVal l := by
        simp only [digitsVal, List.foldl_cons]
        exact ih (10 * 0 + (c.toNat - 48))
      rw [h2]
      ring

theorem digitsVal_append (l1 l2 : List Char) :
    digitsVal (l1 ++ l2) = digitsVal l1 * 10 ^ l2.length + digitsVal l2 := by
  simp only [digitsVal, List.foldl_append]
  exact digitsVal_from _ l2

theorem digitsVal_cons (c : Char) (l : List Char) :
    digitsVal (c :: l) = (c.toNat - 48) * 10 ^ l.length + digitsVal l := by
  simp only [digitsVal, List.foldl_cons]
  have h := digitsVal_from (10 * 0 + (c.toNat - 48)) l
  simpa using h

theorem digitsVal_replicate_zero (k : ℕ) :
    digitsVal (List.replicate k '0') = 0 := by
  induction k with
  | zero => rfl
  | succ k ih =>
      rw [List.replicate_succ, digitsVal_cons, ih,
        show '0'.toNat - 48 = 0 from rfl]
      simp

theorem notDot_true {c : Char} (h : c ≠ '.') : notDot c = true := by
  simp [notDot, h]

theorem takeWhile_no_dot (fp : List Char) :
    ∀ ip : List Char, (∀ c ∈ ip, c ≠ '.') →
    ((ip ++ '.' :: fp).takeWhile notDot = ip ∧
     (ip ++ '.' :: fp).dropWhile notDot = '.' :: fp) := by
  intro ip
  induction ip with
  | nil =>
      intro _
      constructor <;>
        simp [List.takeWhile_cons, List.dropWhile_cons, notDot]
  | cons c l ih =>
      intro h
      have hc : notDot c = true := notDot_true (h c (by simp))
      obtain ⟨h1, h2⟩ := ih (fun c2 hc2 => h c2 (by simp [hc2]))
      constructor
      · simp only [List.cons_append, List.takeWhile_cons, hc]
        simp [h1]
      · simp only [List.cons_append, List.dropWhile_cons, hc]
        simp [h2]

theorem takeWhile_all_no_dot (l : List Char) :
    (∀ c ∈ l, c ≠ '.') → l.takeWhile notDot = l := by
  induction l with
  | nil => intro _; rfl
  | cons c l2 ih =>
      intro h
      simp only [List.takeWhile_cons, notDot_true (h c (by simp))]
      simp [ih (fun x hx => h x (by simp [hx]))]

theorem decCharsVal_no_dot (l : List Char) (h : ∀ c ∈ l, c ≠ '.') :
    decCharsVal l = (digitsVal l : ℚ) := by
  have h2 : l.dropWhile notDot = [] :=
    List.dropWhile_eq_nil_iff.mpr (fun x hx => notDot_true (h x hx))
  unfold decCharsVal
  rw [takeWhile_all_no_dot l h, h2]
  simp [digitsVal]

theorem decCharsVal_split (ip fp : List Char) (h : ∀ c ∈ ip, c ≠ '.') :
    decCharsVal (ip ++ '.' :: fp)
      = (digitsVal ip : ℚ) + (digitsVal fp : ℚ) / 10 ^ fp.length := by
  obtain ⟨h1, h2⟩ := takeWhile_no_dot fp ip h
  unfold decCharsVal
  rw [h1, h2]
  simp

/-- C9 counterexample: the matched substring `12.5e-1` (base `"12"`,
fraction `"5"`, exponent `-1`) denotes `1.25`, but the replacement the
second pass produces is `"0.125"`, which denotes `0.125`: the negative
branch prepends `"0."` without accounting for a multi-digit integer
part. -/
theorem scientific_to_decimal_counterexample :
    scientific_to_decimal ['1', '2'] ['5'] (-1) = ['0', '.', '1', '2', '5'] ∧
    decCharsVal ['0', '.', '1', '2', '5'] = 1/8 ∧
    sciVal ['1', '2'] ['5'] (-1) = 5/4 ∧
    decCharsVal (scientific_to_decimal ['1', '2'] ['5'] (-1))
      ≠ sciVal ['1', '2'] ['5'] (-1) := by
  have h1 : scientific_to_decimal ['1', '2'] ['5'] (-1)
      = ['0', '.', '1', '2', '5'] := rfl
  have h2 : decCharsVal ['0', '.', '1', '2', '5'] = 1/8 := by
    have hsplit : (['0'] ++ '.' :: ['1', '2', '5'])
        = ['0', '.', '1', '2', '5'] := rfl
    rw [← hsplit, decCharsVal_split ['0'] ['1', '2', '5'] (by decide)]
    norm_num [digitsVal, show '0'.toNat = 48 from rfl, show '1'.toNat = 49 from rfl,
      show '2'.toNat = 50 from rfl, show '5'.toNat = 53 from rfl]
  have h3 : sciVal ['1', '2'] ['5'] (-1) = 5/4 := by
    rw [sciVal]
    norm_num [digitsVal, show '1'.toNat = 49 from rfl, show '2'.toNat = 50 from rfl,
      show '5'.toNat = 53 from rfl]
  refine ⟨h1, h2, h3, ?_⟩
  rw [h1, h2, h3]
  norm_num

/-- C9 amended: the replacement emitted by the defensive second pass
denotes the same numeric value as the matched scientific-notation
literal whenever the exponent is positive, or the exponent is negative
and the mantissa's integer part is a single digit (the canonical form
a float serializer emits); with a multi-digit integer part and a
negative exponent the replacement misplaces the decimal point. -/
theorem scientific_to_decimal_value (base frac : List Char) (exp : ℤ)
    (hb : base ≠ []) (hbd : ∀ c ∈ base, c.isDigit = true)
    (hfd : ∀ c ∈ frac, c.isDigit = true)
    (hexp : 0 < exp ∨ (exp < 0 ∧ base.length = 1)) :
    decCharsVal (scientific_to_decimal base frac exp) = sciVal base frac exp := by
  have hbnd : ∀ c ∈ base, c ≠ '.' := fun c hc => (isDigit_ne_special (hbd c hc)).1
  have hfnd : ∀ c ∈ frac, c ≠ '.' := fun c hc => (isDigit_ne_special (hfd c hc)).1
  have hpow_ne : ∀ n : ℕ, ((10 : ℚ) ^ n) ≠ 0 := fun n => by positivity
  rcases hexp with hpos | ⟨hneg, hlen⟩
  · have hz : (10 : ℚ) ^ exp = 10 ^ exp.toNat := by
      rw [← zpow_natCast (10 : ℚ) exp.toNat, Int.toNat_of_nonneg hpos.le]
    simp only [scientific_to_decimal]
    rw [if_pos hpos]
    by_cases hle : frac.length ≤ exp.toNat
    · rw [if_pos hle]
      have hnd : ∀ c ∈ base ++ frac ++
          List.replicate (exp.toNat - frac.length) '0', c ≠ '.' := by
        intro c hc
        simp only [List.append_assoc, List.mem_append] at hc
        rcases hc with h | h | h
        · exact hbnd c h
        · exact hfnd c h
        · rw [List.eq_of_mem_replicate h]; decide
      rw [decCharsVal_no_dot _ hnd, digitsVal_append, digitsVal_append,
        digitsVal_replicate_zero, List.length_replicate, sciVal, hz]
      push_cast
      have h10 : (10 : ℚ) ^ exp.toNat
          = 10 ^ frac.length * 10 ^ (exp.toNat - frac.length) := by
        rw [← pow_add]
        congr 1
        omega
      rw [h10]
      field_simp
      ring
    · rw [if_neg hle]
      have hnd : ∀ c ∈ base ++ frac.take exp.toNat, c ≠ '.' := by
        intro c hc
        rcases List.mem_append.mp hc with h | h
        · exact hbnd c h
        · exact hfnd c (List.mem_of_mem_take h)
      rw [decCharsVal_split _ _ hnd, digitsVal_append]
      have hfr : digitsVal frac
          = digitsVal (frac.take exp.toNat) * 10 ^ (frac.drop exp.toNat).length
            + digitsVal (frac.drop exp.toNat) := by
        conv_lhs => rw [← List.take_append_drop exp.toNat frac]
        rw [digitsVal_append]
      rw [sciVal, hz, hfr]
      push_cast
      have hlens : (frac.take exp.toNat).length = exp.toNat := by
        rw [List.length_take]
        omega
      have hlend : (frac.drop exp.toNat).length = frac.length - exp.toNat :=
        List.length_drop _ _
      rw [hlens, hlend]
      have h10 : (10 : ℚ) ^ frac.length
          = 10 ^ exp.toNat * 10 ^ (frac.length - exp.toNat) := by
        rw [← pow_add]
        congr 1
        omega
      rw [h10]
      field_simp
      ring
  · obtain ⟨d, rfl⟩ : ∃ d, base = [d] := by
      rcases base with _ | ⟨d, rest⟩
      · exact absurd rfl hb
      · have h0 : rest.length = 0 := by simpa using hlen
        exact ⟨d, by rw [List.length_eq_zero.mp h0]⟩
    simp only [scientific_to_decimal]
    rw [if_neg (by omega : ¬ (0 : ℤ) < exp)]
    rw [show ('0' :: '.' :: (List.replicate (exp.natAbs - 1) '0' ++ [d] ++ frac) :
          List Char)
        = ['0'] ++ '.' :: (List.replicate (exp.natAbs - 1) '0' ++ [d] ++ frac)
        from rfl]
    rw [decCharsVal_split _ _ (by decide), digitsVal_append, digitsVal_append,
      digitsVal_replicate_zero,
      show digitsVal ['0'] = 0 from rfl]
    simp only [List.length_append, List.length_replicate, List.length_cons,
      List.length_nil]
    have hzneg : (10 : ℚ) ^ exp = ((10 : ℚ) ^ exp.natAbs)⁻¹ := by
      have hk : exp = -((exp.natAbs : ℕ) : ℤ) := by omega
      conv_lhs => rw [hk]
      rw [zpow_neg, zpow_natCast]
    have hkk : exp.natAbs - 1 + (0 + 1) + frac.length
        = exp.natAbs + frac.length := by
      omega
    rw [sciVal, hzneg, hkk]
    push_cast
    have h10 : (10 : ℚ) ^ (exp.natAbs + frac.length)
        = 10 ^ exp.natAbs * 10 ^ frac.length := pow_add 10 _ _
    rw [h10]
    have hd1 : digitsVal [d] = d.toNat - 48 := by
      rw [show ([d] : List Char) = d :: [] from rfl, digitsVal_cons]
      simp [digitsVal]
    rw [hd1]
    field_simp
    left
    ring

/-- Witness for the amended C9 at the canonical literal `1.3e-6`. -/
theorem scientific_to_decimal_value_witness :
    (['1'] : List Char) ≠ [] ∧ (-6 : ℤ) < 0 ∧
    decCharsVal (scientific_to_decimal ['1'] ['3'] (-6))
      = sciVal ['1'] ['3'] (-6) :=
  ⟨by decide, by norm_num,
   scientific_to_decimal_value ['1'] ['3'] (-6) (by decide) (by decide)
     (by decide) (Or.inr ⟨by norm_num, rfl⟩)⟩

/-- A one-vendor catalog whose single model carries float-valued
pricing after cleanup. -/
def cat0 : List VendorGroup := [⟨"Anthropic", [anthFlatModel]⟩]

/-- C7 (code bug exhibit): a run with `--decimal-places -1` opens
`models.json` for writing — truncating it — before the float
formatting raises, and the top-level handler swallows the error, so
the catalog file is destroyed rather than the run being rejected
before mutation; and a run with a non-numeric multiplier value merely
logs one configuration error and proceeds to write all three output
documents. -/
theorem cleanup_config_error_not_rejected :
    (runCleanup [] (-1) false cat0).events = [.openTrunc "models.json"] ∧
    (runCleanup [] (-1) false cat0).aborted = true ∧
    (runCleanup [("anthropic", "abc")] 10 false cat0).events
      = [.openTrunc "models.json", .writeDoc "models.json",
         .openTrunc "status.json", .writeDoc "status.json",
         .openTrunc "aliases.json", .writeDoc "aliases.json"] ∧
    (runCleanup [("anthropic", "abc")] 10 false cat0).configErrors = 1 ∧
    (runCleanup [("anthropic", "abc")] 10 false cat0).aborted = false :=
  ⟨rfl, rfl, rfl, rfl, rfl⟩
